import Mathlib

/-
Verification of the request-signature validation subsystem
(litestar/_signature/model.py) against its specification.

The Python source is shallowly embedded: raw Python values appearing in
kwargs and constraint bags become the inductive `PyVal`; the dynamically
generated signature struct becomes the `SigModel` record; exceptions become
the inductive `Exc`; the msgspec `convert` call is modelled by the
executable `convertStruct` (fail-fast on the first failing field, mirroring
the unstructured `ValidationError` the library raises), and the two
exception shapes handled by `parse_values_from_connection_kwargs` are the
constructors of `BatchOutcome`.
-/

set_option autoImplicit false

namespace Litestar

/-- A Python value as it appears in raw kwargs or constraint bags. -/
inductive PyVal where
  | pyInt (n : Int)
  | pyStr (s : String)
  | pyBool (b : Bool)
  | pyNone
deriving DecidableEq

/-- Python truthiness of a `PyVal` (used by `if min_items := ...pop(...)`). -/
def PyVal.truthy : PyVal → Bool
  | .pyInt n => n != 0
  | .pyStr s => s != ""
  | .pyBool b => b
  | .pyNone => false

/-- The backtick character, used in msgspec error texts. -/
def backtickChar : Char := Char.ofNat 96

/-- The apostrophe character, used in the repr of a Python KeyError. -/
def apostChar : Char := Char.ofNat 39

/-- Does the second list start with the first (character pattern matching)? -/
def startsWithSeq : List Char → List Char → Bool
  | [], _ => true
  | _ :: _, [] => false
  | p :: ps, c :: cs => p == c && startsWithSeq ps cs

/-- The three characters of the literal separator used in
`exc_msg.split(" - ")[0]`. -/
def sepChars : List Char := [' ', '-', ' ']

/-- Characters of a string up to (excluding) the first occurrence of the
separator pattern; the whole list when the pattern does not occur.  This is
the embedding of the Python expression `s.split(" - ")[0]`. -/
def takeUntilSep : List Char → List Char
  | [] => []
  | c :: rest =>
    if startsWithSeq sepChars (c :: rest) then []
    else c :: takeUntilSep rest

/-- String form of `takeUntilSep`: embeds `exc_msg.split(" - ")[0]`. -/
def truncAtSep (s : String) : String := String.mk (takeUntilSep s.data)

/-- Does the pattern occur anywhere in the list? -/
def occursIn (pat : List Char) : List Char → Bool
  | [] => startsWithSeq pat []
  | c :: cs => startsWithSeq pat (c :: cs) || occursIn pat cs

/-- Scan of the body (final backtick removed) for the leftmost occurrence of
backtick-dollar-dot followed by at least one character, all characters after
it being non-newline (the regex dot does not cross newlines).  Mirrors the
search semantics of `ERR_RE = re.compile(r"` + "backtick-dollar-dot-(.+)-backtick-dollar-anchor" + `")`. -/
def scanTick : List Char → Option (List Char)
  | [] => none
  | a :: rest =>
    match rest with
    | b :: d :: c :: rest2 =>
      if a == backtickChar && b == '$' && d == '.' then
        if (c :: rest2).all (fun ch => ch != '\n') then some (c :: rest2)
        else scanTick rest
      else scanTick rest
    | _ => none

/-- Embedding of `ERR_RE.search(s)` returning `group(1)`: the pattern only
matches when the string ends in a backtick, with the group being everything
between the leftmost viable backtick-dollar-dot and that final backtick. -/
def errReSearch (s : String) : Option String :=
  match s.data.getLast? with
  | some c =>
    if c == backtickChar then (scanTick s.data.dropLast).map (fun cs => String.mk cs)
    else none
  | none => none

/-- Join a key path with dots: embeds `".".join(keys)`. -/
def joinKeys (keys : List String) : String := String.intercalate "." keys

/-- Embedding of the Python `s.startswith(pre)` test. -/
def pyStartsWith (s pre : String) : Bool := startsWithSeq pre.data s.data

/-- Non-overlapping left-to-right removal of the character sequence
d-a-t-a-dot: the character-level embedding of `s.replace("data.", "")`. -/
def stripDataSeq : List Char → List Char
  | 'd' :: 'a' :: 't' :: 'a' :: '.' :: rest => stripDataSeq rest
  | c :: rest => c :: stripDataSeq rest
  | [] => []

/-- String form of `stripDataSeq`: embeds `s.replace("data.", "")`. -/
def stripData (s : String) : String := String.mk (stripDataSeq s.data)

/-- First-match lookup in an association list (a Python dict access). -/
def alistLookup {α : Type} (l : List (String × α)) (k : String) : Option α :=
  (l.find? (fun kv => kv.1 == k)).map (fun kv => kv.2)

/-- Remove a key from an association list (a Python dict `pop`). -/
def alistErase {α : Type} (l : List (String × α)) (k : String) : List (String × α) :=
  l.filter (fun kv => kv.1 != k)

/-- Dict assignment: replace the value when the key exists, else append. -/
def alistInsert {α : Type} (l : List (String × α)) (k : String) (v : α) : List (String × α) :=
  if l.any (fun kv => kv.1 == k) then
    l.map (fun kv => if kv.1 == k then (k, v) else kv)
  else l ++ [(k, v)]

/-- The source tag of an error message: the literal body tag or one of the
`ParamType` enum members used by the code. -/
inductive Source where
  | body
  | query
  | header
  | cookie
deriving DecidableEq

/-- Embedding of the `ErrorMessage` TypedDict: `key` and `source` are the
NotRequired entries. -/
structure ErrorMessage where
  key : Option String
  message : String
  source : Option Source
deriving DecidableEq

/-- The kwarg definition stored on a field: a `ParameterKwarg` with its
cookie and header flags (truthiness of the cookie/header attributes), or
some other kwarg definition (for example a body kwarg). -/
inductive KwargDefModel where
  | parameterK (cookie : Bool) (headerF : Bool)
  | otherK
deriving DecidableEq

/-- One field of the generated signature struct: its name, the stored kwarg
definition used for error-source lookup, the default recorded by `create`
(`none` embeds msgspec NODEFAULT, i.e. a required field), and the coercion
the structural decoder performs on a present raw value. -/
structure FieldRec where
  name : String
  kwargDef : Option KwargDefModel
  defaultVal : Option PyVal
  coerce : PyVal → Except String PyVal

/-- The class-level data of a generated `SignatureModel` subclass: its
fields and its dependency name set. -/
structure SigModel where
  fields : List FieldRec
  depNames : List String

/-- The parts of an ASGI connection the subsystem reads: the method when the
scope has one (`none` embeds a websocket scope), the URL, and the query
parameter names. -/
structure Conn where
  methodName : Option String
  url : String
  queryParams : List String

/-- Embedding of `connection.method if hasattr(connection, "method") else
ScopeType.WEBSOCKET`. -/
def methodOf (conn : Conn) : String :=
  match conn.methodName with
  | some m => m
  | none => "websocket"

/-- The exceptions that can leave the subsystem.  `msgspecError` stands for
the low-level decode failure type (`msgspec.ValidationError`); it is part of
the type so that theorems can state it is never raised to the caller. -/
inductive Exc where
  | validation (detail : String) (extra : List ErrorMessage)
  | internalServer
  | msgspecError (msg : String)
deriving DecidableEq

/-- The kwarg definition stored for a joined key: the embedding of
`cls._fields[key].kwarg_definition` guarded by `key in cls._fields`. -/
def fieldKwarg (model : SigModel) (key : String) : Option KwargDefModel :=
  (model.fields.find? (fun f => f.name == key)).bind (fun f => f.kwargDef)

/-- Embedding of `SignatureModel._build_error_message`. -/
def _build_error_message (model : SigModel) (conn : Conn) (keys : List String)
    (excMsg : String) : ErrorMessage :=
  let base : ErrorMessage := { key := none, message := truncAtSep excMsg, source := none }
  match keys with
  | [] => base
  | k0 :: _ =>
    let key := joinKeys keys
    if pyStartsWith k0 "data" then
      { base with key := some (stripData key), source := some .body }
    else if conn.queryParams.contains key then
      { base with key := some key, source := some .query }
    else
      match fieldKwarg model key with
      | some (.parameterK c h) =>
        { base with key := some key,
                    source := some (if c then .cookie else if h then .header else .query) }
      | _ => { base with key := some key, source := none }

/-- Is the message client-caused per `_create_exception`: it has no key, or
its key is not in the dependency name set. -/
def clientCaused (model : SigModel) (m : ErrorMessage) : Bool :=
  match m.key with
  | none => true
  | some k => !(model.depNames.contains k)

/-- Embedding of `SignatureModel._create_exception`. -/
def _create_exception (model : SigModel) (conn : Conn) (messages : List ErrorMessage) : Exc :=
  let clientErrors := messages.filter (clientCaused model)
  if clientErrors.isEmpty then .internalServer
  else .validation ("Validation failed for " ++ methodOf conn ++ " " ++ conn.url) clientErrors

/-- The string form of a Python KeyError raised by `kwargs[field_name]` in
`_collect_errors` when the field is missing: the repr of the key. -/
def keyErrorStr (name : String) : String :=
  apostChar.toString ++ name ++ apostChar.toString

/-- Embedding of the msgspec `convert(kwargs, cls, strict=False, ...)` call
on the generated struct, flattened by `to_dict`.  msgspec raises a single
unstructured ValidationError at the first failing field: a missing required
field yields the standard missing-field text, and a present raw value runs
the coercion of the field (builtin coercion plus the dec hook).  A field
absent from kwargs but having a default takes the default. -/
def convertField (kwargs : List (String × PyVal)) (f : FieldRec) :
    Except String (String × PyVal) :=
  match alistLookup kwargs f.name with
  | some v => (f.coerce v).map (fun cv => (f.name, cv))
  | none =>
    match f.defaultVal with
    | some d => Except.ok (f.name, d)
    | none =>
      Except.error ("Object missing required field " ++ backtickChar.toString
        ++ f.name ++ backtickChar.toString)

/-- The batch convert over a list of fields, in order, failing fast at the
first failing field as msgspec does. -/
def convertFields (kwargs : List (String × PyVal)) :
    List FieldRec → Except String (List (String × PyVal))
  | [] => .ok []
  | f :: fs =>
    match convertField kwargs f with
    | .error e => .error e
    | .ok p =>
      match convertFields kwargs fs with
      | .error e => .error e
      | .ok ps => .ok (p :: ps)

/-- The batch convert call: every field of the struct in order. -/
def convertStruct (model : SigModel) (kwargs : List (String × PyVal)) :
    Except String (List (String × PyVal)) :=
  convertFields kwargs model.fields

/-- Embedding of `SignatureModel._collect_errors`: replay coercion field by
field, collecting `(field_name, str(exception))` pairs.  `kwargs[field_name]`
raises a KeyError when the field is absent, which is collected too.
`collectField` is the replay of a single field. -/
def collectField (kwargs : List (String × PyVal)) (f : FieldRec) :
    Option (String × String) :=
  match alistLookup kwargs f.name with
  | none => some (f.name, keyErrorStr f.name)
  | some v =>
    match f.coerce v with
    | .error s => some (f.name, s)
    | .ok _ => none

/-- The full per-field replay over all fields of the struct. -/
def _collect_errors (model : SigModel) (kwargs : List (String × PyVal)) :
    List (String × String) :=
  model.fields.filterMap (collectField kwargs)

/-- The keys used for one replayed field in the unstructured-failure branch:
`[field_name, match.group(1)]` when `ERR_RE` matches the replay failure
text, else `[field_name]`. -/
def keysFromReplay (fieldName excStr : String) : List String :=
  match errReSearch excStr with
  | some p => [fieldName, p]
  | none => [fieldName]

/-- The error messages built in the unstructured-failure branch of
`parse_values_from_connection_kwargs`: one per replayed failure, each built
from the text of the original batch failure `eMsg`. -/
def fallbackMessages (model : SigModel) (conn : Conn) (eMsg : String)
    (replay : List (String × String)) : List ErrorMessage :=
  replay.map (fun fe => _build_error_message model conn (keysFromReplay fe.1 fe.2) eMsg)

/-- The outcome of the batch `convert` call as seen by the two except
clauses of `parse_values_from_connection_kwargs`: full success, an
`ExtendedMsgSpecValidationError` carrying structured per-field errors
(location path and message), or a plain unstructured `ValidationError`. -/
inductive BatchOutcome where
  | ok (rec : List (String × PyVal))
  | extendedErr (errs : List (List String × String))
  | plainErr (msg : String)

/-- Embedding of the body of `parse_values_from_connection_kwargs` as a
function of the batch outcome and of the per-field replay results. -/
def parseWithOutcome (model : SigModel) (conn : Conn) :
    BatchOutcome → List (String × String) → Except Exc (List (String × PyVal))
  | .ok rec, _ => .ok rec
  | .extendedErr errs, _ =>
    .error (_create_exception model conn
      (errs.map (fun e => _build_error_message model conn e.1 e.2)))
  | .plainErr msg, replay =>
    .error (_create_exception model conn (fallbackMessages model conn msg replay))

/-- Embedding of `SignatureModel.parse_values_from_connection_kwargs` with
the concrete msgspec decode model `convertStruct`: the batch convert either
succeeds or raises an unstructured ValidationError, in which case the
per-field replay of `_collect_errors` feeds the fallback branch. -/
def parse_values_from_connection_kwargs (model : SigModel) (conn : Conn)
    (kwargs : List (String × PyVal)) : Except Exc (List (String × PyVal)) :=
  match convertStruct model kwargs with
  | .ok rec => .ok rec
  | .error m => parseWithOutcome model conn (.plainErr m) (_collect_errors model kwargs)

/-- The attributes of the msgspec `Meta` class, as tested by
`hasattr(Meta, k)` in `SignatureModel.create`. -/
def metaKnownFields : List String :=
  ["gt", "ge", "lt", "le", "multiple_of", "pattern", "min_length", "max_length",
   "tz", "title", "description", "examples", "extra_json_schema", "extra"]

/-- The keyword arguments assembled for the `Meta(**meta_kwargs)` call:
the known-field assignments and the extra side-channel dict. -/
structure MetaSpec where
  fields : List (String × PyVal)
  extra : List (String × PyVal)
deriving DecidableEq

/-- Modelled from the spec: `simple_asdict(kwarg_definition, exclude_empty=True)`
lives in `litestar.utils.dataclass`, which is not among the sources.  Per the
spec, empty and absent constraint values are excluded entirely, so the
resulting dict keeps only entries with a truthy value. -/
def excludeEmptyConstraints (kw : List (String × PyVal)) : List (String × PyVal) :=
  kw.filter (fun kv => kv.2.truthy)

/-- Embedding of the constraint-translation loop of `SignatureModel.create`
(the `meta_kwargs` construction): pop `min_items` and `max_items`, renaming
them to `min_length` and `max_length` when truthy, then route every
remaining key to a known `Meta` field when `hasattr(Meta, k)` holds and the
value is not None, and to the extra side-channel otherwise.  `metaStep` is
one iteration of the loop. -/
def metaStep (acc : MetaSpec) (kv : String × PyVal) : MetaSpec :=
  if metaKnownFields.contains kv.1 && kv.2 != .pyNone then
    ⟨alistInsert acc.fields kv.1 kv.2, acc.extra⟩
  else
    ⟨acc.fields, alistInsert acc.extra kv.1 kv.2⟩

/-- One truthiness-guarded rename: the popped value, when present and
truthy, is assigned under its new name. -/
def renameEntry (name : String) (vOpt : Option PyVal) (acc : MetaSpec) : MetaSpec :=
  match vOpt with
  | some v => if v.truthy then ⟨alistInsert acc.fields name v, acc.extra⟩ else acc
  | none => acc

/-- The pops of `min_items` and `max_items` with their truthiness-guarded
renames to `min_length` and `max_length`, building the initial meta keyword
dict the loop then extends. -/
def metaRenames (kw : List (String × PyVal)) : MetaSpec :=
  renameEntry "max_length" (alistLookup (alistErase kw "min_items") "max_items")
    (renameEntry "min_length" (alistLookup kw "min_items") ⟨[], []⟩)

/-- The full translation: pops of the two renamed keys followed by the loop
over the remaining constraint entries. -/
def buildMetaKwargs (kw : List (String × PyVal)) : MetaSpec :=
  (alistErase (alistErase kw "min_items") "max_items").foldl metaStep (metaRenames kw)

/-- The full constraint translation of `SignatureModel.create` for one
parameter: the dataclass is dumped excluding empty values, then translated
into the `Meta` keyword arguments. -/
def translateKwargDefinition (kw : List (String × PyVal)) : MetaSpec :=
  buildMetaKwargs (excludeEmptyConstraints kw)

/-- Embedding of the default determination in `SignatureModel.create`:
`field_definition.default if field_definition.has_default else NODEFAULT`.
`none` embeds NODEFAULT, i.e. the field is required. -/
def structFieldDefault (hasDefault : Bool) (defaultVal : PyVal) : Option PyVal :=
  if hasDefault then some defaultVal else none

/-- A declared type annotation as handled by the annotation creation of the
signature model: Any, the none type, a named base type, a union of members,
a decoder-tagged type (the `_decoder` setattr), or a Meta-annotated type. -/
inductive TypeExpr where
  | any
  | noneT
  | base (n : String)
  | union (ms : List TypeExpr)
  | tagged (t : TypeExpr)
  | annotated (t : TypeExpr) (m : MetaSpec)

/-- Is the member the none type (`t.annotation is type(None)`)? -/
def isNoneType : TypeExpr → Bool
  | .noneT => true
  | _ => false

/-- Modelled from the spec: `_normalize_annotation` lives in
`litestar._signature.utils`, which is not among the sources.  Spec 4.1
assigns it no structural rewriting of the declared annotation (Any-typed
parameters pass through unchanged; unions and decoders are handled by the
annotation creation itself), so it is modelled as the identity. -/
def normalizeAnnot (t : TypeExpr) : TypeExpr := t

mutual

/-- Embedding of `SignatureModel._create_annotation` (named `_create_annot`
because of naming constraints of this development).  Since `normalizeAnnot`
is the identity, the dispatch on the normalized annotation is a direct match
on the declared type: Any passes through; a union maps annotation creation
over its non-none members, re-wrapping as `Optional[types[0]]` when a none
member was present and as `Union[tuple(types)]` otherwise (an empty member
list embeds the Python IndexError / empty-Union error as `none`); any other
type is tagged when a decoder matches and wrapped with the Meta data when
present.  `dec` models `_get_decoder_for_type` returning a decoder. -/
def _create_annot (dec : TypeExpr → Bool) (meta : Option MetaSpec) :
    TypeExpr → Option TypeExpr
  | .any => some .any
  | .union ms => do
    let types ← _create_annot_list dec meta ms
    if ms.any isNoneType then
      match types with
      | t :: _ => pure (.union [t, .noneT])
      | [] => none
    else
      match types with
      | [] => none
      | _ => pure (.union types)
  | t =>
    let t0 := normalizeAnnot t
    let t1 := if dec t0 then .tagged t0 else t0
    some (match meta with | some m => .annotated t1 m | none => t1)

/-- The list comprehension over the generator
`(t for t in field_definition.inner_types if t.annotation is not type(None))`:
none members are skipped, the rest go through annotation creation. -/
def _create_annot_list (dec : TypeExpr → Bool) (meta : Option MetaSpec) :
    List TypeExpr → Option (List TypeExpr)
  | [] => some []
  | t :: ts =>
    if isNoneType t then _create_annot_list dec meta ts
    else do
      let a ← _create_annot dec meta t
      let rest ← _create_annot_list dec meta ts
      pure (a :: rest)

end

/-- A target type as seen by the `_deserializer` dec hook: its isinstance
predicate, whether it carries a `_decoder` attribute, and that decoder
(already applied to the target type as its first argument). -/
structure TargetTy where
  isInst : PyVal → Bool
  hasDec : Bool
  dec : PyVal → PyVal

/-- Embedding of the module-level `_deserializer` dec hook. -/
def _deserializer (t : TargetTy) (v : PyVal) (defaultDes : TargetTy → PyVal → PyVal) : PyVal :=
  if t.isInst v then v
  else if t.hasDec then t.dec v
  else defaultDes t v

/-- Coercing a kwargs mapping through the dec hook field by field. -/
def coerceAllFields (fields : List (TargetTy × PyVal))
    (defaultDes : TargetTy → PyVal → PyVal) : List PyVal :=
  fields.map (fun tv => _deserializer tv.1 tv.2 defaultDes)

/-! Fixtures used by closed theorems. -/

def modelEmpty : SigModel := ⟨[], []⟩

def modelDep : SigModel := ⟨[], ["dep"]⟩

def connQ : Conn := ⟨some "GET", "http://t", ["database_id"]⟩

def connPlain : Conn := ⟨some "GET", "http://t", []⟩

def msgNoKey : ErrorMessage := ⟨none, "bad", none⟩

def msgDepKey : ErrorMessage := ⟨some "dep", "oops", none⟩

/-- C1: annotation creation for the optional union `Union[int, str, None]`
keeps only the first non-none member: the produced annotation is
`Optional[int]`, so the member `str` is dropped, contradicting the claim
that no non-none member of the original union is dropped. -/
theorem C1_optional_union_drops_second_member :
    _create_annot (fun _ => false) none
      (.union [.base "int", .base "str", .noneT])
      = some (.union [.base "int", .noneT]) := rfl

/-- C2 counterexample: for the key path `["database_id"]` with
`database_id` among the query parameter names, the first key is not
`"data"` and the joined key is a query parameter name, yet the code tags
the source as body (because it tests `startswith("data")`); and for the key
path `["plain"]` that is neither a query parameter nor a known field, the
built message carries no source at all, contradicting the claimed default
to query. -/
theorem C2_counterexample_error_source :
    (_build_error_message modelEmpty connQ ["database_id"] "bad value").source
        = some Source.body
    ∧ ("database_id" == "data") = false
    ∧ connQ.queryParams.contains "database_id" = true
    ∧ (_build_error_message modelEmpty connPlain ["plain"] "bad value").source = none :=
  ⟨rfl, rfl, rfl, rfl⟩

/-- Bridge between the boolean `List.contains` of the embedding and list
membership. -/
theorem contains_true_iff (l : List String) (k : String) :
    l.contains k = true ↔ k ∈ l := by
  simp

/-- C2 amended: for a non-empty key path, the source is body when the first
key starts with `"data"` (every occurrence of `"data."` being removed from
the joined key, which is otherwise kept verbatim); else query when the
joined key is one of the query parameter names; else, when the stored kwarg
definition of the field named by the joined key is a ParameterKwarg, cookie
or header per its flags and query otherwise; and in the remaining case the
message carries a key but no source. -/
theorem C2_amended_error_source (model : SigModel) (conn : Conn) (k0 : String)
    (ks : List String) (excMsg : String) :
    (pyStartsWith k0 "data" = true →
      (_build_error_message model conn (k0 :: ks) excMsg).key
          = some (stripData (joinKeys (k0 :: ks)))
      ∧ (_build_error_message model conn (k0 :: ks) excMsg).source = some .body)
    ∧ (pyStartsWith k0 "data" = false →
      (_build_error_message model conn (k0 :: ks) excMsg).key = some (joinKeys (k0 :: ks)))
    ∧ (pyStartsWith k0 "data" = false →
      conn.queryParams.contains (joinKeys (k0 :: ks)) = true →
      (_build_error_message model conn (k0 :: ks) excMsg).source = some .query)
    ∧ (pyStartsWith k0 "data" = false →
      conn.queryParams.contains (joinKeys (k0 :: ks)) = false →
      ∀ c h, fieldKwarg model (joinKeys (k0 :: ks)) = some (.parameterK c h) →
        (_build_error_message model conn (k0 :: ks) excMsg).source
            = some (if c then .cookie else if h then .header else .query))
    ∧ (pyStartsWith k0 "data" = false →
      conn.queryParams.contains (joinKeys (k0 :: ks)) = false →
      (∀ c h, fieldKwarg model (joinKeys (k0 :: ks)) ≠ some (.parameterK c h)) →
        (_build_error_message model conn (k0 :: ks) excMsg).source = none) := by
  refine ⟨?_, ?_, ?_, ?_, ?_⟩
  · intro h1
    simp [_build_error_message, h1]
  · intro h1
    have h1b : pyStartsWith k0 "data" ≠ true := by simp [h1]
    simp only [_build_error_message, if_neg h1b]
    by_cases h2 : joinKeys (k0 :: ks) ∈ conn.queryParams
    · simp [h2]
    · have h2b : ¬ conn.queryParams.contains (joinKeys (k0 :: ks)) = true := by
        simpa [contains_true_iff] using h2
      simp only [if_neg h2b]
      cases hk : fieldKwarg model (joinKeys (k0 :: ks)) with
      | none => simp
      | some kd =>
        cases kd with
        | parameterK c h => simp
        | otherK => simp
  · intro h1 h2
    have h2m : joinKeys (k0 :: ks) ∈ conn.queryParams := (contains_true_iff _ _).mp h2
    simp [_build_error_message, h1, h2m]
  · intro h1 h2 c h hk
    have h2m : joinKeys (k0 :: ks) ∉ conn.queryParams := by simpa using h2
    simp [_build_error_message, h1, h2m, hk]
  · intro h1 h2 hall
    have h2m : joinKeys (k0 :: ks) ∉ conn.queryParams := by simpa using h2
    cases hk : fieldKwarg model (joinKeys (k0 :: ks)) with
    | none => simp [_build_error_message, h1, h2m, hk]
    | some kd =>
      cases kd with
      | parameterK c h => exact absurd hk (hall c h)
      | otherK => simp [_build_error_message, h1, h2m, hk]

/-- C2 amended, witness: the amended classification evaluated on the two
inputs of the counterexample. -/
theorem C2_amended_error_source_witness :
    (pyStartsWith "database_id" "data" = true
      ∧ (_build_error_message modelEmpty connQ ["database_id"] "bad value").source
          = some Source.body)
    ∧ (pyStartsWith "plain" "data" = false
      ∧ connPlain.queryParams.contains (joinKeys ["plain"]) = false
      ∧ (_build_error_message modelEmpty connPlain ["plain"] "bad value").source = none) :=
  ⟨⟨rfl, ((C2_amended_error_source modelEmpty connQ "database_id" [] "bad value").1 rfl).2⟩,
   ⟨rfl, rfl,
    (C2_amended_error_source modelEmpty connPlain "plain" [] "bad value").2.2.2.2 rfl rfl
      (by intro c h hk; cases hk)⟩⟩

/-- C3 counterexample: with the dependency name set `{dep}` and the message
list holding one keyless message and one message keyed `dep`, the raised
exception carries only the keyless message in its extra payload, not the
full list of messages. -/
theorem C3_counterexample_exception_payload :
    _create_exception modelDep connPlain [msgNoKey, msgDepKey]
        = .validation "Validation failed for GET http://t" [msgNoKey]
    ∧ ([msgNoKey] : List ErrorMessage) ≠ [msgNoKey, msgDepKey] :=
  ⟨rfl, by decide⟩

/-- C3 amended: a message is client-caused exactly when it has no key or a
key outside the dependency name set; when at least one client-caused
message exists the result is a client validation exception whose extra
payload is the sublist of client-caused messages (not the full list) and
whose detail names the method and URL; when every message has a key in the
dependency name set the result is the internal server exception. -/
theorem C3_amended_exception_payload (model : SigModel) (conn : Conn)
    (msgs : List ErrorMessage) :
    ((∃ m ∈ msgs, m.key = none ∨ ∃ k, m.key = some k ∧ k ∉ model.depNames) →
      _create_exception model conn msgs
        = .validation ("Validation failed for " ++ methodOf conn ++ " " ++ conn.url)
            (msgs.filter (clientCaused model)))
    ∧ ((∀ m ∈ msgs, ∃ k, m.key = some k ∧ k ∈ model.depNames) →
      _create_exception model conn msgs = .internalServer) := by
  have hiff : ∀ m : ErrorMessage, clientCaused model m = true ↔
      (m.key = none ∨ ∃ k, m.key = some k ∧ k ∉ model.depNames) := by
    intro m
    cases hk : m.key with
    | none => simp [clientCaused, hk]
    | some k => simp [clientCaused, hk]
  constructor
  · rintro ⟨m, hm, hcl⟩
    have hmem : m ∈ msgs.filter (clientCaused model) :=
      List.mem_filter.mpr ⟨hm, (hiff m).mpr hcl⟩
    have hne : (msgs.filter (clientCaused model)).isEmpty = false := by
      cases hfe : msgs.filter (clientCaused model) with
      | nil => rw [hfe] at hmem; cases hmem
      | cons a l => simp [hfe, List.isEmpty]
    simp [_create_exception, hne]
  · intro hall
    have hfe : msgs.filter (clientCaused model) = [] := by
      rw [List.filter_eq_nil_iff]
      intro m hm
      obtain ⟨k, hk, hdep⟩ := hall m hm
      simp [clientCaused, hk, hdep]
    simp [_create_exception, hfe]

/-- C3 amended, witness: the amended statement evaluated on the
counterexample message list and on an all-dependency message list. -/
theorem C3_amended_exception_payload_witness :
    (_create_exception modelDep connPlain [msgNoKey, msgDepKey]
        = .validation "Validation failed for GET http://t" [msgNoKey])
    ∧ (_create_exception modelDep connPlain [msgDepKey] = .internalServer) :=
  ⟨(C3_amended_exception_payload modelDep connPlain [msgNoKey, msgDepKey]).1 (by decide),
   (C3_amended_exception_payload modelDep connPlain [msgDepKey]).2 (by decide)⟩

/-- C5: the dec hook returns an already-conforming value unchanged, invokes
the custom decoder when one is attached, and delegates to the default
deserializer otherwise; consequently coercing a kwargs mapping whose values
all already conform returns exactly those values. -/
theorem C5_deserializer_identity (t : TargetTy) (v : PyVal)
    (d : TargetTy → PyVal → PyVal) (fields : List (TargetTy × PyVal)) :
    (t.isInst v = true → _deserializer t v d = v)
    ∧ (t.isInst v = false → t.hasDec = true → _deserializer t v d = t.dec v)
    ∧ (t.isInst v = false → t.hasDec = false → _deserializer t v d = d t v)
    ∧ ((∀ tv ∈ fields, tv.1.isInst tv.2 = true) →
        coerceAllFields fields d = fields.map (fun tv => tv.2)) := by
  refine ⟨?_, ?_, ?_, ?_⟩
  · intro h; simp [_deserializer, h]
  · intro h1 h2; simp [_deserializer, h1, h2]
  · intro h1 h2; simp [_deserializer, h1, h2]
  · intro hall
    induction fields with
    | nil => rfl
    | cons a l ih =>
      have ha := hall a (by simp)
      have hl := ih (fun tv htv => hall tv (by simp [htv]))
      simp only [coerceAllFields, List.map_cons] at hl ⊢
      rw [hl]
      simp [_deserializer, ha]

/-- Example target type for the dec hook: conforming values are the
integers; no custom decoder. -/
def tyInt : TargetTy :=
  ⟨fun v => match v with | .pyInt _ => true | _ => false, false, fun v => v⟩

/-- Example default deserializer: the identity on the raw value. -/
def desId : TargetTy → PyVal → PyVal := fun _ v => v

/-- C5, witness: identity pass-through on a conforming value and on a fully
conforming kwargs mapping. -/
theorem C5_deserializer_identity_witness :
    (tyInt.isInst (.pyInt 3) = true
      ∧ _deserializer tyInt (.pyInt 3) desId = .pyInt 3)
    ∧ coerceAllFields [(tyInt, .pyInt 3), (tyInt, .pyInt 7)] desId
        = [.pyInt 3, .pyInt 7] :=
  ⟨⟨rfl, (C5_deserializer_identity tyInt (.pyInt 3) desId []).1 rfl⟩,
   (C5_deserializer_identity tyInt (.pyInt 3) desId
      [(tyInt, .pyInt 3), (tyInt, .pyInt 7)]).2.2.2 (by decide)⟩

/-- C10: with an empty error-message list, exception creation yields the
internal server exception, both directly and through the two failure
branches of kwargs parsing (an unstructured batch failure whose replay
reproduces no failing field, and a structured failure with an empty
sub-error list). -/
theorem C10_empty_messages_internal_error (model : SigModel) (conn : Conn)
    (eMsg : String) :
    parseWithOutcome model conn (.plainErr eMsg) [] = .error .internalServer
    ∧ parseWithOutcome model conn (.extendedErr []) [] = .error .internalServer
    ∧ _create_exception model conn [] = .internalServer :=
  ⟨rfl, rfl, rfl⟩

/-- If a pattern matches at the head of a list it still matches after
appending further characters. -/
theorem startsWithSeq_append (p : List Char) : ∀ t r : List Char,
    startsWithSeq p t = true → startsWithSeq p (t ++ r) = true := by
  induction p with
  | nil => intro t r _; rfl
  | cons a ps ih =>
    intro t r h
    cases t with
    | nil => cases h
    | cons c cs =>
      simp only [startsWithSeq, Bool.and_eq_true] at h
      simp only [List.cons_append, startsWithSeq, Bool.and_eq_true]
      exact ⟨h.1, ih cs r h.2⟩

/-- Decomposition of a character list at the first separator occurrence:
`takeUntilSep` returns a separator-free prefix of the list, and what
remains is empty or starts with the separator. -/
theorem takeUntilSep_decomp (l : List Char) :
    ∃ rest, l = takeUntilSep l ++ rest
      ∧ occursIn sepChars (takeUntilSep l) = false
      ∧ (rest = [] ∨ startsWithSeq sepChars rest = true) := by
  induction l with
  | nil => exact ⟨[], rfl, rfl, Or.inl rfl⟩
  | cons c cs ih =>
    by_cases h : startsWithSeq sepChars (c :: cs) = true
    · have htk : takeUntilSep (c :: cs) = [] := by simp [takeUntilSep, h]
      exact ⟨c :: cs, by rw [htk]; rfl, by rw [htk]; rfl, Or.inr h⟩
    · obtain ⟨rest, hdec, hocc, hrest⟩ := ih
      have hb : startsWithSeq sepChars (c :: cs) = false := by
        cases hv : startsWithSeq sepChars (c :: cs) with
        | true => exact absurd hv h
        | false => rfl
      have htk : takeUntilSep (c :: cs) = c :: takeUntilSep cs := by
        simp [takeUntilSep, hb]
      refine ⟨rest, ?_, ?_, hrest⟩
      · rw [htk, List.cons_append, ← hdec]
      · rw [htk]
        have hhead : startsWithSeq sepChars (c :: takeUntilSep cs) = false := by
          cases hv : startsWithSeq sepChars (c :: takeUntilSep cs) with
          | false => rfl
          | true =>
            have := startsWithSeq_append sepChars (c :: takeUntilSep cs) rest hv
            rw [List.cons_append, ← hdec] at this
            rw [this] at hb
            cases hb
        simp only [occursIn, hhead, hocc, Bool.or_self]

/-- The message text of every built error message is the truncation of the
raw failure text at the first separator. -/
theorem build_message_text (model : SigModel) (conn : Conn) (keys : List String)
    (excMsg : String) :
    (_build_error_message model conn keys excMsg).message = truncAtSep excMsg := by
  cases keys with
  | nil => rfl
  | cons k0 ks =>
    by_cases h1 : pyStartsWith k0 "data" = true
    · simp [_build_error_message, h1]
    · have h1b : pyStartsWith k0 "data" = false := by
        cases hv : pyStartsWith k0 "data" with
        | true => exact absurd hv h1
        | false => rfl
      by_cases h2 : joinKeys (k0 :: ks) ∈ conn.queryParams
      · simp [_build_error_message, h1b, h2]
      · cases hk : fieldKwarg model (joinKeys (k0 :: ks)) with
        | none => simp [_build_error_message, h1b, h2, hk]
        | some kd =>
          cases kd with
          | parameterK c h => simp [_build_error_message, h1b, h2, hk]
          | otherK => simp [_build_error_message, h1b, h2, hk]

/-- C8: the text of every message produced by the error projector is the
prefix of the raw decoder message up to the first literal separator (the
whole message when the separator does not occur): the remainder of the raw
message is empty or starts with the separator, and the emitted text itself
contains no separator occurrence. -/
theorem C8_message_truncated_at_sep (model : SigModel) (conn : Conn)
    (keys : List String) (excMsg : String) :
    ∃ rest : List Char,
      excMsg.data = (_build_error_message model conn keys excMsg).message.data ++ rest
      ∧ occursIn sepChars (_build_error_message model conn keys excMsg).message.data = false
      ∧ (rest = [] ∨ startsWithSeq sepChars rest = true) := by
  obtain ⟨rest, hdec, hocc, hrest⟩ := takeUntilSep_decomp excMsg.data
  refine ⟨rest, ?_, ?_, hrest⟩
  · rw [build_message_text]
    exact hdec
  · rw [build_message_text]
    exact hocc

/-- The fallback messages depend on the replay list only through the field
names and the extracted trailing paths. -/
theorem fallback_as_map (model : SigModel) (conn : Conn) (eMsg : String)
    (replay : List (String × String)) :
    fallbackMessages model conn eMsg replay
      = (replay.map (fun fe => (fe.1, errReSearch fe.2))).map
          (fun p => _build_error_message model conn
            (match p.2 with | some x => [p.1, x] | none => [p.1]) eMsg) := by
  rw [List.map_map]
  rfl

/-- C9: in the unstructured-failure fallback path, every built message takes
its text from the original batch failure string (truncated at the first
separator), and the built messages depend on the per-field replay failures
only through the failing field names and the nested paths extracted from
their trailing backtick-dollar patterns. -/
theorem C9_fallback_text_from_batch_failure (model : SigModel) (conn : Conn)
    (eMsg : String) (replay replay2 : List (String × String))
    (h : replay.map (fun fe => (fe.1, errReSearch fe.2))
        = replay2.map (fun fe => (fe.1, errReSearch fe.2))) :
    (∀ m ∈ fallbackMessages model conn eMsg replay, m.message = truncAtSep eMsg)
    ∧ fallbackMessages model conn eMsg replay
        = fallbackMessages model conn eMsg replay2 := by
  constructor
  · intro m hm
    simp only [fallbackMessages, List.mem_map] at hm
    obtain ⟨fe, hfe, hme⟩ := hm
    rw [← hme]
    exact build_message_text model conn (keysFromReplay fe.1 fe.2) eMsg
  · rw [fallback_as_map, h, ← fallback_as_map]

/-- C9, witness: two replay lists whose failure texts differ but whose
extracted paths agree produce the same messages, built from the batch
failure text. -/
theorem C9_fallback_text_from_batch_failure_witness :
    ([("f", "boom `$.x`")].map (fun fe => (fe.1, errReSearch fe.2))
      = [("f", "zzz `$.x`")].map (fun fe => (fe.1, errReSearch fe.2)))
    ∧ fallbackMessages modelEmpty connPlain "batch - noise" [("f", "boom `$.x`")]
        = fallbackMessages modelEmpty connPlain "batch - noise" [("f", "zzz `$.x`")] :=
  ⟨rfl,
   (C9_fallback_text_from_batch_failure modelEmpty connPlain "batch - noise"
      [("f", "boom `$.x`")] [("f", "zzz `$.x`")] rfl).2⟩

/-- A successful per-field convert returns a pair named after the field. -/
theorem convertField_ok_name (kwargs : List (String × PyVal)) (f : FieldRec)
    (p : String × PyVal) (h : convertField kwargs f = .ok p) : p.1 = f.name := by
  cases hl : alistLookup kwargs f.name with
  | some v =>
    cases hc : f.coerce v with
    | ok cv =>
      simp only [convertField, hl, hc, Except.map, Except.ok.injEq] at h
      subst h
      rfl
    | error e =>
      simp [convertField, hl, hc, Except.map] at h
  | none =>
    cases hd : f.defaultVal with
    | some d =>
      simp only [convertField, hl, hd, Except.ok.injEq] at h
      subst h
      rfl
    | none =>
      simp [convertField, hl, hd] at h

/-- A successful batch convert returns one value per field, named after the
fields in order: the returned mapping is complete. -/
theorem convertFields_ok_names (kwargs : List (String × PyVal)) :
    ∀ (fs : List FieldRec) (rec : List (String × PyVal)),
      convertFields kwargs fs = .ok rec →
      rec.map Prod.fst = fs.map FieldRec.name := by
  intro fs
  induction fs with
  | nil =>
    intro rec h
    cases h
    rfl
  | cons a l ih =>
    intro rec h
    unfold convertFields at h
    cases ha : convertField kwargs a with
    | error e => rw [ha] at h; cases h
    | ok p =>
      rw [ha] at h
      cases hl : convertFields kwargs l with
      | error e => rw [hl] at h; cases h
      | ok rs =>
        rw [hl] at h
        cases h
        simp only [List.map_cons]
        rw [convertField_ok_name kwargs a p ha, ih rs hl]

/-- One failing field makes the whole batch convert fail. -/
theorem convertFields_error_of_mem (kwargs : List (String × PyVal))
    (fs : List FieldRec) (fr : FieldRec) (hfr : fr ∈ fs) (e : String)
    (he : convertField kwargs fr = .error e) :
    ∃ e2, convertFields kwargs fs = .error e2 := by
  induction fs with
  | nil => cases hfr
  | cons a l ih =>
    cases ha : convertField kwargs a with
    | error e2 => exact ⟨e2, by simp [convertFields, ha]⟩
    | ok p =>
      rcases List.mem_cons.mp hfr with heq | hmem
      · rw [← heq, he] at ha; cases ha
      · obtain ⟨e2, h2⟩ := ih hmem
        exact ⟨e2, by simp [convertFields, ha, h2]⟩

/-- Exception creation only ever produces one of the two request-level
exception kinds. -/
theorem create_exception_shape (model : SigModel) (conn : Conn)
    (msgs : List ErrorMessage) :
    (∃ d ex, _create_exception model conn msgs = .validation d ex)
    ∨ _create_exception model conn msgs = .internalServer := by
  cases he : (msgs.filter (clientCaused model)).isEmpty with
  | true => exact Or.inr (by simp [_create_exception, he])
  | false =>
    exact Or.inl ⟨"Validation failed for " ++ methodOf conn ++ " " ++ conn.url,
      msgs.filter (clientCaused model), by simp [_create_exception, he]⟩

/-- C4: parsing kwargs never ends in the low-level decode failure and never
in partial success: either it returns a mapping with exactly one value per
declared field, or it fails as a whole with a client validation exception
or with the internal server exception. -/
theorem C4_total_failure_or_complete_success (model : SigModel) (conn : Conn)
    (kwargs : List (String × PyVal)) :
    (∃ rec, parse_values_from_connection_kwargs model conn kwargs = .ok rec
        ∧ rec.map Prod.fst = model.fields.map FieldRec.name)
    ∨ (∃ d ex, parse_values_from_connection_kwargs model conn kwargs
        = .error (.validation d ex))
    ∨ parse_values_from_connection_kwargs model conn kwargs
        = .error .internalServer := by
  unfold parse_values_from_connection_kwargs
  cases hc : convertStruct model kwargs with
  | ok rec =>
    exact Or.inl ⟨rec, rfl, convertFields_ok_names kwargs model.fields rec hc⟩
  | error m =>
    rcases create_exception_shape model conn
        (fallbackMessages model conn m (_collect_errors model kwargs)) with
      ⟨d, ex, hce⟩ | hce
    · exact Or.inr (Or.inl ⟨d, ex, by simp [parseWithOutcome, hce]⟩)
    · exact Or.inr (Or.inr (by simp [parseWithOutcome, hce]))

/-- The last character of a KeyError repr is the closing apostrophe. -/
theorem keyErrorStr_getLast (f : String) :
    (keyErrorStr f).data.getLast? = some apostChar := by
  show (apostChar.toString ++ f ++ apostChar.toString).data.getLast? = some apostChar
  rw [String.data_append, String.data_append]
  rw [show apostChar.toString.data = [apostChar] from rfl]
  rw [List.getLast?_append_of_ne_nil]
  · rfl
  · simp

/-- The trailing-path regex never matches the repr of a KeyError, because
that string ends in an apostrophe rather than a backtick. -/
theorem errReSearch_keyError (f : String) : errReSearch (keyErrorStr f) = none := by
  unfold errReSearch
  rw [keyErrorStr_getLast]
  rfl

/-- For a first key not starting with the body marker, the built message
keeps the joined key verbatim. -/
theorem build_key_of_not_data (model : SigModel) (conn : Conn) (k0 : String)
    (ks : List String) (excMsg : String) (h1 : pyStartsWith k0 "data" = false) :
    (_build_error_message model conn (k0 :: ks) excMsg).key
      = some (joinKeys (k0 :: ks)) := by
  by_cases h2 : joinKeys (k0 :: ks) ∈ conn.queryParams
  · simp [_build_error_message, h1, h2]
  · cases hk : fieldKwarg model (joinKeys (k0 :: ks)) with
    | none => simp [_build_error_message, h1, h2, hk]
    | some kd =>
      cases kd with
      | parameterK c h => simp [_build_error_message, h1, h2, hk]
      | otherK => simp [_build_error_message, h1, h2, hk]

/-- A per-field replay entry carries the name of its field. -/
theorem collectField_name (kwargs : List (String × PyVal)) (f : FieldRec)
    (e : String × String) (h : collectField kwargs f = some e) : e.1 = f.name := by
  cases hl : alistLookup kwargs f.name with
  | none =>
    simp only [collectField, hl, Option.some.injEq] at h
    rw [← h]
  | some v =>
    cases hc : f.coerce v with
    | error s =>
      simp only [collectField, hl, hc, Option.some.injEq] at h
      rw [← h]
    | ok cv => simp [collectField, hl, hc] at h

/-- Example field: required (no default), identity coercion. -/
def fr1 : FieldRec := ⟨"id", none, none, fun v => .ok v⟩

/-- Example signature model with the single required field. -/
def model1 : SigModel := ⟨[fr1], []⟩

/-- Example connection whose query parameters include the field name. -/
def conn1 : Conn := ⟨some "GET", "http://t", ["id"]⟩

section AlistLemmas

variable {α : Type}

/-- Insertion with a different key preserves membership. -/
theorem alistInsert_mem_of_ne (l : List (String × α)) (k k2 : String) (v v2 : α)
    (h : (k, v) ∈ l) (hne : k ≠ k2) : (k, v) ∈ alistInsert l k2 v2 := by
  unfold alistInsert
  by_cases ha : l.any (fun kv => kv.1 == k2)
  · rw [if_pos ha]
    exact List.mem_map.mpr ⟨(k, v), h, by simp [hne]⟩
  · rw [if_neg ha]
    exact List.mem_append_left _ h

/-- Inserting a fresh key appends its entry. -/
theorem alistInsert_self_mem (l : List (String × α)) (k : String) (v : α)
    (h : k ∉ l.map Prod.fst) : (k, v) ∈ alistInsert l k v := by
  unfold alistInsert
  have ha : l.any (fun kv => kv.1 == k) = false := by
    cases hv : l.any (fun kv => kv.1 == k) with
    | false => rfl
    | true =>
      obtain ⟨kv, hkv, hbeq⟩ := List.any_eq_true.mp hv
      exact absurd (List.mem_map.mpr ⟨kv, hkv, eq_of_beq hbeq⟩) h
  rw [ha]
  simp

/-- Insertion always makes its entry a member, whether it replaces an
existing entry for the key or appends a fresh one. -/
theorem alistInsert_total_mem (l : List (String × α)) (k : String) (v : α) :
    (k, v) ∈ alistInsert l k v := by
  unfold alistInsert
  by_cases ha : l.any (fun kv => kv.1 == k)
  · rw [if_pos ha]
    obtain ⟨kv, hkv, hb⟩ := List.any_eq_true.mp ha
    exact List.mem_map.mpr ⟨kv, hkv, by simp [hb]⟩
  · rw [if_neg ha]
    simp

/-- Insertion adds no key beyond the inserted one. -/
theorem alistInsert_key_not_mem (l : List (String × α)) (k k2 : String) (v2 : α)
    (h : k ∉ l.map Prod.fst) (hne : k ≠ k2) :
    k ∉ (alistInsert l k2 v2).map Prod.fst := by
  unfold alistInsert
  by_cases ha : l.any (fun kv => kv.1 == k2)
  · rw [if_pos ha]
    intro hmem
    obtain ⟨kv, hkv, hfst⟩ := List.mem_map.mp hmem
    obtain ⟨kv2, hkv2, hkv2e⟩ := List.mem_map.mp hkv
    by_cases hb : kv2.1 == k2
    · rw [if_pos hb] at hkv2e
      rw [← hkv2e] at hfst
      exact hne hfst.symm
    · rw [if_neg hb] at hkv2e
      rw [← hkv2e] at hfst
      exact h (List.mem_map.mpr ⟨kv2, hkv2, hfst⟩)
  · rw [if_neg ha]
    intro hmem
    rw [List.map_append] at hmem
    rcases List.mem_append.mp hmem with hm | hm
    · exact h hm
    · simp at hm
      exact hne hm

/-- Lookup of a present key under distinct keys returns its value. -/
theorem alistLookup_eq_some_of_mem (l : List (String × α)) (k : String) (v : α)
    (hnd : (l.map Prod.fst).Nodup) (h : (k, v) ∈ l) : alistLookup l k = some v := by
  induction l with
  | nil => cases h
  | cons a rest ih =>
    rcases List.mem_cons.mp h with heq | hmem
    · rw [← heq]
      simp [alistLookup]
    · have hk_rest : k ∈ rest.map Prod.fst := List.mem_map.mpr ⟨(k, v), hmem, rfl⟩
      have hane : (a.1 == k) = false := by
        rw [List.map_cons, List.nodup_cons] at hnd
        cases hb : a.1 == k with
        | false => rfl
        | true => exact absurd (eq_of_beq hb ▸ hk_rest) hnd.1
      simp only [alistLookup, List.find?_cons, hane]
      exact ih (List.nodup_cons.mp (by rw [List.map_cons] at hnd; exact hnd)).2 hmem

/-- A successful lookup exhibits a member entry. -/
theorem alistLookup_some_mem (l : List (String × α)) (k : String) (v : α)
    (h : alistLookup l k = some v) : (k, v) ∈ l := by
  induction l with
  | nil => cases h
  | cons a rest ih =>
    by_cases hb : (a.1 == k) = true
    · have hf : (a :: rest).find? (fun kv => kv.1 == k) = some a :=
        List.find?_cons_of_pos rest hb
      unfold alistLookup at h
      rw [hf] at h
      have hv : a.2 = v := Option.some.inj h
      have hk : a.1 = k := eq_of_beq hb
      exact List.mem_cons.mpr (Or.inl (by rw [← hk, ← hv]))
    · have hf : (a :: rest).find? (fun kv => kv.1 == k)
          = rest.find? (fun kv => kv.1 == k) := List.find?_cons_of_neg rest hb
      unfold alistLookup at h
      rw [hf] at h
      exact List.mem_cons.mpr (Or.inr (ih h))

/-- Erasing one key leaves entries with other keys untouched. -/
theorem mem_alistErase_of_ne (l : List (String × α)) (k k2 : String) (v : α)
    (hne : k ≠ k2) : ((k, v) ∈ alistErase l k2) ↔ (k, v) ∈ l := by
  unfold alistErase
  constructor
  · intro h
    exact (List.mem_filter.mp h).1
  · intro h
    exact List.mem_filter.mpr ⟨h, by simp [hne]⟩

/-- The keys of an erase are among the original keys. -/
theorem alistErase_keys_subset (l : List (String × α)) (k k2 : String)
    (h : k ∈ (alistErase l k2).map Prod.fst) : k ∈ l.map Prod.fst := by
  obtain ⟨kv, hkv, hfst⟩ := List.mem_map.mp h
  exact List.mem_map.mpr ⟨kv, (List.mem_filter.mp hkv).1, hfst⟩

/-- Key distinctness survives an erase. -/
theorem alistErase_keys_nodup (l : List (String × α)) (k2 : String)
    (hnd : (l.map Prod.fst).Nodup) : ((alistErase l k2).map Prod.fst).Nodup :=
  ((List.filter_sublist l).map Prod.fst).nodup hnd

end AlistLemmas

/-- A truthy value is not the None value. -/
theorem truthy_ne_pyNone (v : PyVal) (h : v.truthy = true) :
    (v != PyVal.pyNone) = true := by
  cases v with
  | pyNone => cases h
  | pyInt n => rfl
  | pyStr d => rfl
  | pyBool b => rfl

/-- A field entry whose key the loop never processes survives the loop. -/
theorem foldl_metaStep_preserves_fields (rem : List (String × PyVal)) : ∀ (acc : MetaSpec)
    (k : String) (v : PyVal), (k, v) ∈ acc.fields → k ∉ rem.map Prod.fst →
    (k, v) ∈ (rem.foldl metaStep acc).fields := by
  induction rem with
  | nil => intro acc k v h _; exact h
  | cons a rest ih =>
    intro acc k v h hk
    have hkne : k ≠ a.1 := fun he => hk (by rw [List.map_cons]; exact List.mem_cons.mpr (Or.inl he))
    have hk_rest : k ∉ rest.map Prod.fst :=
      fun hm => hk (by rw [List.map_cons]; exact List.mem_cons.mpr (Or.inr hm))
    rw [List.foldl_cons]
    apply ih _ k v _ hk_rest
    unfold metaStep
    by_cases hc : (metaKnownFields.contains a.1 && (a.2 != PyVal.pyNone)) = true
    · rw [if_pos hc]
      exact alistInsert_mem_of_ne _ _ _ _ _ h hkne
    · rw [if_neg hc]
      exact h

/-- An extra entry whose key the loop never processes survives the loop. -/
theorem foldl_metaStep_preserves_extra (rem : List (String × PyVal)) : ∀ (acc : MetaSpec)
    (k : String) (v : PyVal), (k, v) ∈ acc.extra → k ∉ rem.map Prod.fst →
    (k, v) ∈ (rem.foldl metaStep acc).extra := by
  induction rem with
  | nil => intro acc k v h _; exact h
  | cons a rest ih =>
    intro acc k v h hk
    have hkne : k ≠ a.1 := fun he => hk (by rw [List.map_cons]; exact List.mem_cons.mpr (Or.inl he))
    have hk_rest : k ∉ rest.map Prod.fst :=
      fun hm => hk (by rw [List.map_cons]; exact List.mem_cons.mpr (Or.inr hm))
    rw [List.foldl_cons]
    apply ih _ k v _ hk_rest
    unfold metaStep
    by_cases hc : (metaKnownFields.contains a.1 && (a.2 != PyVal.pyNone)) = true
    · rw [if_pos hc]
      exact h
    · rw [if_neg hc]
      exact alistInsert_mem_of_ne _ _ _ _ _ h hkne

/-- A key absent from the accumulator and from the loop input is absent
from the loop output. -/
theorem foldl_metaStep_key_not_mem (rem : List (String × PyVal)) : ∀ (acc : MetaSpec)
    (k : String), k ∉ acc.fields.map Prod.fst → k ∉ acc.extra.map Prod.fst →
    k ∉ rem.map Prod.fst →
    k ∉ ((rem.foldl metaStep acc).fields.map Prod.fst)
      ∧ k ∉ ((rem.foldl metaStep acc).extra.map Prod.fst) := by
  induction rem with
  | nil => intro acc k hf he _; exact ⟨hf, he⟩
  | cons a rest ih =>
    intro acc k hf he hk
    have hkne : k ≠ a.1 := fun h2 => hk (by rw [List.map_cons]; exact List.mem_cons.mpr (Or.inl h2))
    have hk_rest : k ∉ rest.map Prod.fst :=
      fun hm => hk (by rw [List.map_cons]; exact List.mem_cons.mpr (Or.inr hm))
    rw [List.foldl_cons]
    apply ih _ k _ _ hk_rest
    · unfold metaStep
      by_cases hc : (metaKnownFields.contains a.1 && (a.2 != PyVal.pyNone)) = true
      · rw [if_pos hc]
        exact alistInsert_key_not_mem _ _ _ _ hf hkne
      · rw [if_neg hc]
        exact hf
    · unfold metaStep
      by_cases hc : (metaKnownFields.contains a.1 && (a.2 != PyVal.pyNone)) = true
      · rw [if_pos hc]
        exact he
      · rw [if_neg hc]
        exact alistInsert_key_not_mem _ _ _ _ he hkne

/-- An entry processed by the loop lands in the meta keywords when its key
is a known attribute and its value is not None, and in the extra
side-channel otherwise — replacing any accumulator entry under the same
key, as a dict assignment does. -/
theorem foldl_metaStep_processes (rem : List (String × PyVal)) : ∀ (acc : MetaSpec)
    (k : String) (v : PyVal), (rem.map Prod.fst).Nodup → (k, v) ∈ rem →
    ((metaKnownFields.contains k && (v != PyVal.pyNone)) = true →
      (k, v) ∈ (rem.foldl metaStep acc).fields)
    ∧ ((metaKnownFields.contains k && (v != PyVal.pyNone)) = false →
      (k, v) ∈ (rem.foldl metaStep acc).extra) := by
  induction rem with
  | nil => intro acc k v _ h; cases h
  | cons a rest ih =>
    intro acc k v hnd hmem
    rw [List.map_cons, List.nodup_cons] at hnd
    rw [List.foldl_cons]
    rcases List.mem_cons.mp hmem with heq | hmem2
    · subst heq
      constructor
      · intro hcond
        have hstep : (k, v) ∈ (metaStep acc (k, v)).fields := by
          unfold metaStep
          rw [if_pos (show (metaKnownFields.contains (k, v).1
            && ((k, v).2 != PyVal.pyNone)) = true from hcond)]
          exact alistInsert_total_mem _ _ _
        exact foldl_metaStep_preserves_fields rest _ k v hstep hnd.1
      · intro hcond
        have hcond2 : ¬ (metaKnownFields.contains k && (v != PyVal.pyNone)) = true := by
          rw [hcond]
          exact Bool.false_ne_true
        have hstep : (k, v) ∈ (metaStep acc (k, v)).extra := by
          unfold metaStep
          rw [if_neg (show ¬ (metaKnownFields.contains (k, v).1
            && ((k, v).2 != PyVal.pyNone)) = true from hcond2)]
          exact alistInsert_total_mem _ _ _
        exact foldl_metaStep_preserves_extra rest _ k v hstep hnd.1
    · exact ih _ k v hnd.2 hmem2

/-- A rename never touches the extra side-channel. -/
theorem renameEntry_extra (n : String) (o : Option PyVal) (acc : MetaSpec) :
    (renameEntry n o acc).extra = acc.extra := by
  cases o with
  | none => rfl
  | some v =>
    by_cases ht : v.truthy = true
    · simp [renameEntry, ht]
    · simp [renameEntry, ht]

/-- A present truthy value lands under its new name. -/
theorem renameEntry_mem_self (n : String) (v : PyVal) (acc : MetaSpec)
    (ht : v.truthy = true) (hnot : n ∉ acc.fields.map Prod.fst) :
    (n, v) ∈ (renameEntry n (some v) acc).fields := by
  simp only [renameEntry, ht, if_true]
  exact alistInsert_self_mem _ _ _ hnot

/-- A rename with a different target name preserves field entries. -/
theorem renameEntry_mem_of_ne (n k : String) (o : Option PyVal) (v : PyVal)
    (acc : MetaSpec) (h : (k, v) ∈ acc.fields) (hne : k ≠ n) :
    (k, v) ∈ (renameEntry n o acc).fields := by
  cases o with
  | none => exact h
  | some v2 =>
    by_cases ht : v2.truthy = true
    · simp only [renameEntry, ht, if_true]
      exact alistInsert_mem_of_ne _ _ _ _ _ h hne
    · simp only [renameEntry, ht, if_false]
      exact h

/-- A rename introduces no key other than its target name. -/
theorem renameEntry_key_not_mem (n k : String) (o : Option PyVal) (acc : MetaSpec)
    (h : k ∉ acc.fields.map Prod.fst) (hne : k ≠ n) :
    k ∉ (renameEntry n o acc).fields.map Prod.fst := by
  cases o with
  | none => exact h
  | some v2 =>
    by_cases ht : v2.truthy = true
    · simp only [renameEntry, ht, if_true]
      exact alistInsert_key_not_mem _ _ _ _ h hne
    · simp only [renameEntry, ht, if_false]
      exact h

/-- A rename whose popped value is absent or falsy changes nothing. -/
theorem renameEntry_absent (n : String) (o : Option PyVal) (acc : MetaSpec)
    (h : ∀ v, o = some v → v.truthy = false) : renameEntry n o acc = acc := by
  cases o with
  | none => rfl
  | some v2 =>
    have := h v2 rfl
    simp [renameEntry, this]

/-- The renames stage never touches the extra side-channel. -/
theorem metaRenames_extra (kw : List (String × PyVal)) : (metaRenames kw).extra = [] := by
  unfold metaRenames
  rw [renameEntry_extra, renameEntry_extra]

/-- A truthy popped `min_items` value appears renamed as `min_length`. -/
theorem metaRenames_min_mem (kw : List (String × PyVal)) (v : PyVal)
    (hlk : alistLookup kw "min_items" = some v) (ht : v.truthy = true) :
    ("min_length", v) ∈ (metaRenames kw).fields := by
  unfold metaRenames
  rw [hlk]
  exact renameEntry_mem_of_ne _ _ _ _ _
    (renameEntry_mem_self _ _ _ ht (by simp)) (by decide)

/-- A truthy popped `max_items` value appears renamed as `max_length`. -/
theorem metaRenames_max_mem (kw : List (String × PyVal)) (v : PyVal)
    (hlk : alistLookup (alistErase kw "min_items") "max_items" = some v)
    (ht : v.truthy = true) :
    ("max_length", v) ∈ (metaRenames kw).fields := by
  unfold metaRenames
  rw [hlk]
  exact renameEntry_mem_self _ _ _ ht
    (renameEntry_key_not_mem _ _ _ _ (by simp) (by decide))

/-- The renames stage introduces no key other than the two renamed ones. -/
theorem metaRenames_key_not_mem (kw : List (String × PyVal)) (k : String)
    (h1 : k ≠ "min_length") (h2 : k ≠ "max_length") :
    k ∉ (metaRenames kw).fields.map Prod.fst := by
  unfold metaRenames
  exact renameEntry_key_not_mem _ _ _ _
    (renameEntry_key_not_mem _ _ _ _ (by simp) h1) h2

/-- Without a truthy `min_items` value no `min_length` entry is created. -/
theorem metaRenames_min_absent (kw : List (String × PyVal))
    (hnone : ∀ v, alistLookup kw "min_items" = some v → v.truthy = false) :
    "min_length" ∉ (metaRenames kw).fields.map Prod.fst := by
  unfold metaRenames
  rw [renameEntry_absent _ _ _ hnone]
  exact renameEntry_key_not_mem _ _ _ _ (by simp) (by decide)

/-- Without a truthy popped `max_items` value no `max_length` entry is
created. -/
theorem metaRenames_max_absent (kw : List (String × PyVal))
    (hnone : ∀ v, alistLookup (alistErase kw "min_items") "max_items" = some v →
      v.truthy = false) :
    "max_length" ∉ (metaRenames kw).fields.map Prod.fst := by
  unfold metaRenames
  rw [renameEntry_absent _ _ _ hnone]
  exact renameEntry_key_not_mem _ _ _ _ (by simp) (by decide)

/-- C6: translating a declarative constraint dict with distinct keys and no
preexisting `extra` key: a truthy `min_items` (resp. `max_items`) value is
renamed to `min_length` (resp. `max_length`) whenever no truthy explicit
`min_length` (`max_length`) entry overrides it in the loop; every other
truthy entry — including explicit `min_length` and `max_length` constraints
— maps directly to a known `Meta` field when its key is a known attribute
and is preserved under the extra side-channel otherwise; empty (falsy)
values produce no metadata entry at all; and without a truthy `min_items`
(`max_items`) or a truthy explicit `min_length` (`max_length`) no
`min_length` (`max_length`) entry is synthesized. -/
theorem C6_constraint_translation (kw : List (String × PyVal))
    (hnodup : (kw.map Prod.fst).Nodup)
    (_hex : "extra" ∉ kw.map Prod.fst) :
    (∀ v : PyVal, ("min_items", v) ∈ kw → v.truthy = true →
        (∀ v2 : PyVal, ("min_length", v2) ∈ kw → v2.truthy = false) →
        ("min_length", v) ∈ (translateKwargDefinition kw).fields)
    ∧ (∀ v : PyVal, ("max_items", v) ∈ kw → v.truthy = true →
        (∀ v2 : PyVal, ("max_length", v2) ∈ kw → v2.truthy = false) →
        ("max_length", v) ∈ (translateKwargDefinition kw).fields)
    ∧ (∀ k v, (k, v) ∈ kw → v.truthy = true → k ≠ "min_items" → k ≠ "max_items" →
        (k ∈ metaKnownFields → (k, v) ∈ (translateKwargDefinition kw).fields)
        ∧ (k ∉ metaKnownFields → (k, v) ∈ (translateKwargDefinition kw).extra))
    ∧ (∀ k v, (k, v) ∈ kw → v.truthy = false → k ≠ "min_length" → k ≠ "max_length" →
        k ∉ (translateKwargDefinition kw).fields.map Prod.fst
        ∧ k ∉ (translateKwargDefinition kw).extra.map Prod.fst)
    ∧ ((∀ v : PyVal, ("min_items", v) ∈ kw → v.truthy = false) →
        (∀ v : PyVal, ("min_length", v) ∈ kw → v.truthy = false) →
        "min_length" ∉ (translateKwargDefinition kw).fields.map Prod.fst
        ∧ "min_length" ∉ (translateKwargDefinition kw).extra.map Prod.fst)
    ∧ ((∀ v : PyVal, ("max_items", v) ∈ kw → v.truthy = false) →
        (∀ v : PyVal, ("max_length", v) ∈ kw → v.truthy = false) →
        "max_length" ∉ (translateKwargDefinition kw).fields.map Prod.fst
        ∧ "max_length" ∉ (translateKwargDefinition kw).extra.map Prod.fst) := by
  have hkeNd : ((excludeEmptyConstraints kw).map Prod.fst).Nodup :=
    ((List.filter_sublist kw).map Prod.fst).nodup hnodup
  have hkw1Nd : ((alistErase (excludeEmptyConstraints kw) "min_items").map Prod.fst).Nodup :=
    alistErase_keys_nodup _ _ hkeNd
  have hkw2Nd : ((alistErase (alistErase (excludeEmptyConstraints kw) "min_items")
      "max_items").map Prod.fst).Nodup := alistErase_keys_nodup _ _ hkw1Nd
  have hmemKe : ∀ (k2 : String) (v2 : PyVal), (k2, v2) ∈ kw → v2.truthy = true →
      (k2, v2) ∈ excludeEmptyConstraints kw :=
    fun k2 v2 h ht => List.mem_filter.mpr ⟨h, ht⟩
  have hextraKeys : ∀ k2 : String,
      k2 ∉ (metaRenames (excludeEmptyConstraints kw)).extra.map Prod.fst := by
    intro k2
    rw [metaRenames_extra]
    simp
  have hkw2Absent : ∀ k2 : String, (∀ v2 : PyVal, (k2, v2) ∈ kw → v2.truthy = false) →
      k2 ∉ (alistErase (alistErase (excludeEmptyConstraints kw) "min_items")
        "max_items").map Prod.fst := by
    intro k2 hfal hc
    obtain ⟨kv, hkv, hfst⟩ := List.mem_map.mp hc
    have hkv1 : kv ∈ alistErase (excludeEmptyConstraints kw) "min_items" :=
      List.mem_of_mem_filter hkv
    have hkvke : kv ∈ excludeEmptyConstraints kw := List.mem_of_mem_filter hkv1
    have h2 := List.mem_filter.mp hkvke
    have hmemkw : (k2, kv.2) ∈ kw := by
      rw [← hfst, Prod.mk.eta]
      exact h2.1
    have hf := hfal kv.2 hmemkw
    have h22 := h2.2
    rw [hf] at h22
    cases h22
  refine ⟨?_, ?_, ?_, ?_, ?_, ?_⟩
  · intro v hmem ht hnoml
    have hlk := alistLookup_eq_some_of_mem _ _ _ hkeNd (hmemKe _ _ hmem ht)
    have hren := metaRenames_min_mem _ v hlk ht
    exact foldl_metaStep_preserves_fields _ _ _ _ hren (hkw2Absent _ hnoml)
  · intro v hmem ht hnomxl
    have hkw1 : ("max_items", v) ∈ alistErase (excludeEmptyConstraints kw) "min_items" :=
      (mem_alistErase_of_ne _ _ _ _ (by decide)).mpr (hmemKe _ _ hmem ht)
    have hlk := alistLookup_eq_some_of_mem _ _ _ hkw1Nd hkw1
    have hren := metaRenames_max_mem _ v hlk ht
    exact foldl_metaStep_preserves_fields _ _ _ _ hren (hkw2Absent _ hnomxl)
  · intro k v hmem ht hk1 hk2
    have hkw2m : (k, v) ∈ alistErase (alistErase (excludeEmptyConstraints kw)
        "min_items") "max_items" :=
      (mem_alistErase_of_ne _ _ _ _ hk2).mpr
        ((mem_alistErase_of_ne _ _ _ _ hk1).mpr (hmemKe _ _ hmem ht))
    have hproc := foldl_metaStep_processes _ (metaRenames (excludeEmptyConstraints kw)) k v hkw2Nd hkw2m
    constructor
    · intro hkn
      apply hproc.1
      rw [truthy_ne_pyNone v ht, Bool.and_true]
      exact (contains_true_iff _ _).mpr hkn
    · intro hkn
      apply hproc.2
      rw [truthy_ne_pyNone v ht, Bool.and_true]
      cases hc : metaKnownFields.contains k with
      | false => rfl
      | true => exact absurd ((contains_true_iff _ _).mp hc) hkn
  · intro k v hmem hfalse hkml hkmxl
    have hfal : ∀ v2 : PyVal, (k, v2) ∈ kw → v2.truthy = false := by
      intro v2 hmem2
      have e1 : alistLookup kw k = some v := alistLookup_eq_some_of_mem _ _ _ hnodup hmem
      have e2 : alistLookup kw k = some v2 := alistLookup_eq_some_of_mem _ _ _ hnodup hmem2
      have hvv : v = v2 := Option.some.inj (e1.symm.trans e2)
      rw [← hvv]
      exact hfalse
    exact foldl_metaStep_key_not_mem _ _ _
      (metaRenames_key_not_mem _ _ hkml hkmxl) (hextraKeys k) (hkw2Absent _ hfal)
  · intro hitems hlen
    have habs : ∀ v, alistLookup (excludeEmptyConstraints kw) "min_items" = some v →
        v.truthy = false := by
      intro v hlk
      have h2 := List.mem_filter.mp (alistLookup_some_mem _ _ _ hlk)
      exact hitems v h2.1
    exact foldl_metaStep_key_not_mem _ _ _
      (metaRenames_min_absent _ habs) (hextraKeys "min_length") (hkw2Absent _ hlen)
  · intro hitems hlen
    have habs : ∀ v, alistLookup (alistErase (excludeEmptyConstraints kw) "min_items")
        "max_items" = some v → v.truthy = false := by
      intro v hlk
      have hkw1m := alistLookup_some_mem _ _ _ hlk
      have hke : ("max_items", v) ∈ excludeEmptyConstraints kw :=
        (mem_alistErase_of_ne _ _ _ _ (by decide)).mp hkw1m
      have h2 := List.mem_filter.mp hke
      exact hitems v h2.1
    exact foldl_metaStep_key_not_mem _ _ _
      (metaRenames_max_absent _ habs) (hextraKeys "max_length") (hkw2Absent _ hlen)

/-- Example constraint dict: a truthy renamed key, a known field, an
unknown key, an empty pattern and a None `max_items`. -/
def kw0 : List (String × PyVal) :=
  [("min_items", .pyInt 2), ("gt", .pyInt 1), ("foo_marker", .pyStr "x"),
   ("pattern", .pyStr ""), ("max_items", .pyNone)]

/-- Example constraint dict with an explicit `min_length` constraint. -/
def kwDirect : List (String × PyVal) :=
  [("min_length", .pyInt 3), ("foo_marker", .pyStr "x")]

/-- C6, witness: the translation renames a truthy `min_items`, maps `gt`
and an explicit `min_length` directly, preserves the unknown key in the
extra side-channel, and produces no entry for the empty `pattern` value. -/
theorem C6_constraint_translation_witness :
    (("min_length", PyVal.pyInt 2) ∈ (translateKwargDefinition kw0).fields)
    ∧ (("gt", PyVal.pyInt 1) ∈ (translateKwargDefinition kw0).fields)
    ∧ (("min_length", PyVal.pyInt 3) ∈ (translateKwargDefinition kwDirect).fields)
    ∧ (("foo_marker", PyVal.pyStr "x") ∈ (translateKwargDefinition kw0).extra)
    ∧ ("pattern" ∉ (translateKwargDefinition kw0).fields.map Prod.fst) :=
  ⟨(C6_constraint_translation kw0 (by decide) (by decide)).1
      (PyVal.pyInt 2) (by decide) (by decide) (by intro v2 hm; simp [kw0] at hm),
   ((C6_constraint_translation kw0 (by decide) (by decide)).2.2.1
      "gt" (PyVal.pyInt 1) (by decide) (by decide) (by decide) (by decide)).1 (by decide),
   ((C6_constraint_translation kwDirect (by decide) (by decide)).2.2.1
      "min_length" (PyVal.pyInt 3) (by decide) (by decide) (by decide) (by decide)).1
      (by decide),
   ((C6_constraint_translation kw0 (by decide) (by decide)).2.2.1
      "foo_marker" (PyVal.pyStr "x") (by decide) (by decide) (by decide) (by decide)).2
      (by decide),
   ((C6_constraint_translation kw0 (by decide) (by decide)).2.2.2.1
      "pattern" (PyVal.pyStr "") (by decide) (by decide) (by decide) (by decide)).1⟩

/-- Removing the body marker sequence changes nothing in a dot-free string:
the marker contains a dot. -/
theorem stripDataSeq_no_dot (l : List Char) (h : ('.' : Char) ∉ l) :
    stripDataSeq l = l := by
  induction l with
  | nil => rfl
  | cons c rest ih =>
    have hrest : ('.' : Char) ∉ rest := fun hm => h (List.mem_cons_of_mem c hm)
    rw [stripDataSeq.eq_def]
    split
    · rename_i r2 heq
      exfalso
      apply h
      rw [heq]
      simp
    · rename_i c2 r2 heq
      injection heq with h1 h2
      subst h1
      subst h2
      rw [ih hrest]
    · rename_i heq
      cases heq

/-- The key of a message built for a single dot-free key segment is that
segment itself, whether or not it starts with the body marker (the
`replace` of the marker cannot fire without a dot). -/
theorem build_key_single (model : SigModel) (conn : Conn) (f excMsg : String)
    (hd : ('.' : Char) ∉ f.data) :
    (_build_error_message model conn [f] excMsg).key = some f := by
  by_cases hs : pyStartsWith f "data" = true
  · have hstrip : stripData (joinKeys [f]) = f := by
      show String.mk (stripDataSeq f.data) = f
      rw [stripDataSeq_no_dot f.data hd]
    simp [_build_error_message, hs, hstrip]
  · have hs2 : pyStartsWith f "data" = false := by
      cases hv : pyStartsWith f "data" with
      | true => exact absurd hv hs
      | false => rfl
    exact build_key_of_not_data model conn f [] excMsg hs2

/-- With distinct field names, the lookup of a member field by its name
finds exactly that field record. -/
theorem find_field_of_nodup (f : String) (fr : FieldRec) :
    ∀ fs : List FieldRec, (fs.map FieldRec.name).Nodup → fr ∈ fs → fr.name = f →
    fs.find? (fun fd => fd.name == f) = some fr := by
  intro fs
  induction fs with
  | nil => intro _ hmem _; cases hmem
  | cons a rest ih =>
    intro hnd hmem hname
    rw [List.map_cons, List.nodup_cons] at hnd
    by_cases hb : (a.name == f) = true
    · rw [List.find?_cons_of_pos rest hb]
      rcases List.mem_cons.mp hmem with heq | hmem2
      · rw [heq]
      · exfalso
        apply hnd.1
        rw [eq_of_beq hb, ← hname]
        exact List.mem_map.mpr ⟨fr, hmem2, rfl⟩
    · rw [List.find?_cons_of_neg rest hb]
      rcases List.mem_cons.mp hmem with heq | hmem2
      · subst heq
        rw [hname] at hb
        exact absurd (beq_self_eq_true f) hb
      · exact ih hnd.2 hmem2 hname

/-- A name borne by no field yields no replay entry. -/
theorem collect_no_entries_for_absent (kwargs : List (String × PyVal)) (f : String) :
    ∀ fs : List FieldRec, f ∉ fs.map FieldRec.name →
    (fs.filterMap (collectField kwargs)).filter (fun e => e.1 == f) = [] := by
  intro fs
  induction fs with
  | nil => intro _; rfl
  | cons a rest ih =>
    intro habs
    have hane : a.name ≠ f := fun he => habs (by
      rw [List.map_cons]
      exact List.mem_cons.mpr (Or.inl he.symm))
    have hrest : f ∉ rest.map FieldRec.name := fun hm => habs (by
      rw [List.map_cons]
      exact List.mem_cons.mpr (Or.inr hm))
    cases hcf : collectField kwargs a with
    | none =>
      simp only [List.filterMap_cons, hcf]
      exact ih hrest
    | some e =>
      have hen : e.1 = a.name := collectField_name kwargs a e hcf
      have hbne : (e.1 == f) = false := beq_eq_false_iff_ne.mpr (by rw [hen]; exact hane)
      simp only [List.filterMap_cons, hcf, List.filter_cons, hbne, Bool.false_eq_true,
        if_false]
      exact ih hrest

/-- The replay entries of a field missing from the kwargs, filtered by that
field name: exactly the one KeyError entry, under distinct field names. -/
theorem collect_filter_missing (kwargs : List (String × PyVal)) (f : String)
    (fr : FieldRec) (habs : alistLookup kwargs f = none) :
    ∀ fs : List FieldRec, (fs.map FieldRec.name).Nodup → fr ∈ fs → fr.name = f →
    (fs.filterMap (collectField kwargs)).filter (fun e => e.1 == f)
      = [(f, keyErrorStr f)] := by
  intro fs
  induction fs with
  | nil => intro _ hmem _; cases hmem
  | cons a rest ih =>
    intro hnd hmem hname
    rw [List.map_cons, List.nodup_cons] at hnd
    rcases List.mem_cons.mp hmem with heq | hmem2
    · subst heq
      have hcf : collectField kwargs fr = some (f, keyErrorStr f) := by
        simp [collectField, hname, habs]
      have htail : (rest.filterMap (collectField kwargs)).filter (fun e => e.1 == f)
          = [] := by
        apply collect_no_entries_for_absent
        rw [← hname]
        exact hnd.1
      simp [List.filterMap_cons, hcf, List.filter_cons, htail]
    · have hane : a.name ≠ f := by
        intro he
        apply hnd.1
        rw [he, ← hname]
        exact List.mem_map.mpr ⟨fr, hmem2, rfl⟩
      cases hcf : collectField kwargs a with
      | none =>
        simp only [List.filterMap_cons, hcf]
        exact ih hnd.2 hmem2 hname
      | some e =>
        have hen : e.1 = a.name := collectField_name kwargs a e hcf
        have hbne : (e.1 == f) = false := beq_eq_false_iff_ne.mpr (by rw [hen]; exact hane)
        simp only [List.filterMap_cons, hcf, List.filter_cons, hbne, Bool.false_eq_true,
          if_false]
        exact ih hnd.2 hmem2 hname

/-- C7 counterexample: the required field `id` of a handler, omitted from
empty kwargs, is declared query-sourced by default (it has no parameter
kwarg and its declared origin falls back to query), yet the single built
message carries no source at all — the claim that the message is
source-classified according to its declared origin fails. -/
theorem C7_counterexample_unclassified_source :
    parse_values_from_connection_kwargs model1 connPlain []
      = .error (.validation "Validation failed for GET http://t"
          [{ key := some "id", message := "Object missing required field `id`",
             source := none }])
    ∧ ({ key := some "id", message := "Object missing required field `id`",
         source := none } : ErrorMessage).source ≠ some Source.query :=
  ⟨rfl, by decide⟩

/-- C7 amended: a parameter with no explicit default is recorded as
required (no placeholder default is synthesized); omitting it from the raw
kwargs makes the whole parse fail with a client validation exception; the
per-field replay contains exactly one entry for that field; the message the
projector builds for it carries the field name as key and is in the
exception payload, with its source given by the projector classification of
the single-segment key path: body when the name starts with the body
marker, else query when the name is a query parameter name, else cookie or
header or query per the cookie and header flags of the field's stored
ParameterKwarg, and no source at all when the field has no ParameterKwarg
(there is no default to query).  Field names are dot-free, as Python
identifiers are. -/
theorem C7_amended_required_field_failure (model : SigModel) (conn : Conn)
    (kwargs : List (String × PyVal)) (f : String) (fr : FieldRec) (dv : PyVal)
    (hfr : fr ∈ model.fields) (hname : fr.name = f) (hreq : fr.defaultVal = none)
    (habs : alistLookup kwargs f = none) (hdep : f ∉ model.depNames)
    (hnodup : (model.fields.map FieldRec.name).Nodup)
    (hdots : ∀ g ∈ model.fields.map FieldRec.name, ('.' : Char) ∉ g.data) :
    structFieldDefault false dv = none
    ∧ ∃ eMsg msgs,
        convertStruct model kwargs = .error eMsg
        ∧ parse_values_from_connection_kwargs model conn kwargs
            = .error (.validation
                ("Validation failed for " ++ methodOf conn ++ " " ++ conn.url) msgs)
        ∧ (_collect_errors model kwargs).filter (fun e => e.1 == f)
            = [(f, keyErrorStr f)]
        ∧ _build_error_message model conn [f] eMsg ∈ msgs
        ∧ (_build_error_message model conn [f] eMsg).key = some f
        ∧ (pyStartsWith f "data" = true →
            (_build_error_message model conn [f] eMsg).source = some .body)
        ∧ (pyStartsWith f "data" = false → conn.queryParams.contains f = true →
            (_build_error_message model conn [f] eMsg).source = some .query)
        ∧ (pyStartsWith f "data" = false → conn.queryParams.contains f = false →
            ∀ c h, fr.kwargDef = some (.parameterK c h) →
              (_build_error_message model conn [f] eMsg).source
                = some (if c then .cookie else if h then .header else .query))
        ∧ (pyStartsWith f "data" = false → conn.queryParams.contains f = false →
            (∀ c h, fr.kwargDef ≠ some (.parameterK c h)) →
              (_build_error_message model conn [f] eMsg).source = none) := by
  refine ⟨rfl, ?_⟩
  have hfmem : f ∈ model.fields.map FieldRec.name :=
    hname ▸ List.mem_map_of_mem FieldRec.name hfr
  have hdotf : ('.' : Char) ∉ f.data := hdots f hfmem
  have hcnf : model.depNames.contains f = false := by
    cases hcv : model.depNames.contains f with
    | false => rfl
    | true => exact absurd ((contains_true_iff _ _).mp hcv) hdep
  have hcf_err : convertField kwargs fr = .error
      ("Object missing required field " ++ backtickChar.toString ++ f
        ++ backtickChar.toString) := by
    simp [convertField, hname, habs, hreq]
  obtain ⟨eMsg, hconv⟩ :=
    convertFields_error_of_mem kwargs model.fields fr hfr _ hcf_err
  have hkeyf : (_build_error_message model conn [f] eMsg).key = some f :=
    build_key_single model conn f eMsg hdotf
  have hccf : clientCaused model (_build_error_message model conn [f] eMsg) = true := by
    simp only [clientCaused, hkeyf, hcnf]
    rfl
  have hcfr : collectField kwargs fr = some (f, keyErrorStr f) := by
    simp [collectField, hname, habs]
  have hrep_mem : (f, keyErrorStr f) ∈ _collect_errors model kwargs :=
    List.mem_filterMap.mpr ⟨fr, hfr, hcfr⟩
  have hmem_all : _build_error_message model conn [f] eMsg
      ∈ fallbackMessages model conn eMsg (_collect_errors model kwargs) := by
    have hmm := List.mem_map_of_mem
      (fun fe : String × String =>
        _build_error_message model conn (keysFromReplay fe.1 fe.2) eMsg) hrep_mem
    simpa [fallbackMessages, keysFromReplay, errReSearch_keyError] using hmm
  have hmemf : _build_error_message model conn [f] eMsg
      ∈ (fallbackMessages model conn eMsg (_collect_errors model kwargs)).filter
          (clientCaused model) :=
    List.mem_filter.mpr ⟨hmem_all, hccf⟩
  have hne : ((fallbackMessages model conn eMsg (_collect_errors model kwargs)).filter
      (clientCaused model)).isEmpty = false := by
    cases hmm : (fallbackMessages model conn eMsg (_collect_errors model kwargs)).filter
        (clientCaused model) with
    | nil => rw [hmm] at hmemf; cases hmemf
    | cons x xs => rfl
  have hparse : parse_values_from_connection_kwargs model conn kwargs
      = .error (.validation ("Validation failed for " ++ methodOf conn ++ " " ++ conn.url)
          ((fallbackMessages model conn eMsg (_collect_errors model kwargs)).filter
            (clientCaused model))) := by
    unfold parse_values_from_connection_kwargs
    rw [show convertStruct model kwargs = Except.error eMsg from hconv]
    show Except.error (_create_exception model conn
      (fallbackMessages model conn eMsg (_collect_errors model kwargs))) = _
    simp only [_create_exception, hne]
    rfl
  have hfilter : (_collect_errors model kwargs).filter (fun e => e.1 == f)
      = [(f, keyErrorStr f)] :=
    collect_filter_missing kwargs f fr habs model.fields hnodup hfr hname
  have hfind : model.fields.find? (fun fd => fd.name == f) = some fr :=
    find_field_of_nodup f fr model.fields hnodup hfr hname
  have hfk : fieldKwarg model (joinKeys [f]) = fr.kwargDef := by
    show (model.fields.find? (fun fd => fd.name == joinKeys [f])).bind
      (fun fd => fd.kwargDef) = fr.kwargDef
    rw [show model.fields.find? (fun fd => fd.name == joinKeys [f]) = some fr from hfind]
    rfl
  refine ⟨eMsg, _, hconv, hparse, hfilter, hmemf, hkeyf, ?_, ?_, ?_, ?_⟩
  · intro hs
    simp [_build_error_message, hs]
  · intro hs h2
    have h2m : joinKeys [f] ∈ conn.queryParams :=
      (contains_true_iff conn.queryParams (joinKeys [f])).mp h2
    simp [_build_error_message, hs, h2m]
  · intro hs h2 c h hk
    have h2f : f ∉ conn.queryParams := by simpa using h2
    have h2m : joinKeys [f] ∉ conn.queryParams := h2f
    have hfk2 : fieldKwarg model (joinKeys [f]) = some (.parameterK c h) := by
      rw [hfk, hk]
    simp [_build_error_message, hs, h2m, hfk2]
  · intro hs h2 hall
    have h2f : f ∉ conn.queryParams := by simpa using h2
    have h2m : joinKeys [f] ∉ conn.queryParams := h2f
    cases hkd : fr.kwargDef with
    | none =>
      have hfk2 : fieldKwarg model (joinKeys [f]) = none := by rw [hfk, hkd]
      simp [_build_error_message, hs, h2m, hfk2]
    | some kd =>
      cases kd with
      | parameterK c h => exact absurd hkd (hall c h)
      | otherK =>
        have hfk2 : fieldKwarg model (joinKeys [f]) = some .otherK := by rw [hfk, hkd]
        simp [_build_error_message, hs, h2m, hfk2]

/-- C7 amended, witness: the single required field `id`, omitted from empty
kwargs with `id` among the query parameter names, fails the whole parse
with one replay entry and a message keyed and classified for it. -/
theorem C7_amended_required_field_failure_witness :
    structFieldDefault false PyVal.pyNone = none
    ∧ ∃ eMsg msgs,
        convertStruct model1 [] = .error eMsg
        ∧ parse_values_from_connection_kwargs model1 conn1 []
            = .error (.validation
                ("Validation failed for " ++ methodOf conn1 ++ " " ++ conn1.url) msgs)
        ∧ (_collect_errors model1 []).filter (fun e => e.1 == "id")
            = [("id", keyErrorStr "id")]
        ∧ _build_error_message model1 conn1 ["id"] eMsg ∈ msgs
        ∧ (_build_error_message model1 conn1 ["id"] eMsg).key = some "id"
        ∧ (pyStartsWith "id" "data" = true →
            (_build_error_message model1 conn1 ["id"] eMsg).source = some .body)
        ∧ (pyStartsWith "id" "data" = false → conn1.queryParams.contains "id" = true →
            (_build_error_message model1 conn1 ["id"] eMsg).source = some .query)
        ∧ (pyStartsWith "id" "data" = false → conn1.queryParams.contains "id" = false →
            ∀ c h, fr1.kwargDef = some (.parameterK c h) →
              (_build_error_message model1 conn1 ["id"] eMsg).source
                = some (if c then .cookie else if h then .header else .query))
        ∧ (pyStartsWith "id" "data" = false → conn1.queryParams.contains "id" = false →
            (∀ c h, fr1.kwargDef ≠ some (.parameterK c h)) →
              (_build_error_message model1 conn1 ["id"] eMsg).source = none) :=
  C7_amended_required_field_failure model1 conn1 [] "id" fr1 PyVal.pyNone
    (List.mem_singleton.mpr rfl) rfl rfl rfl (by decide) (by decide) (by decide)

end Litestar
